import Mathlib

/-!
Verification development for the i3workon repository.

The repository contains two near-duplicate iterations of a module
resolution engine (packages internal/mod and internal/search together with
internal/load) and an i3 window-manager helper (internal/i3).  Strings are
embedded as lists of characters; each Go function used by the claims is
translated into a computable Lean definition below, keeping the source
structure and names.  Machine integers are modelled by Nat Int; the code
never relies on overflow for the inputs considered here.
-/

set_option maxRecDepth 4000

/-- Strings are modelled as lists of characters. -/
abbrev Str := List Char

namespace PatternMatch

/-- splitDots splits a string at the occurrences of the wildcard marker
"...", scanning left to right and never overlapping, exactly as
strings.ReplaceAll rewrites the quoted marker inside matchPattern. -/
def splitDots : Str → List Str
  | '.' :: '.' :: '.' :: rest => [] :: splitDots rest
  | c :: rest =>
    match splitDots rest with
    | chunk :: chunks => (c :: chunk) :: chunks
    | [] => [[c]]
  | [] => [[]]

/-- globScan searches for an occurrence of the chunk c at any position
of the string, continuing with k on the remainder after the occurrence;
it realizes one .* c step of the regular expression. -/
def globScan (c : Str) (k : Str → Bool) : Str → Bool
  | [] => c.isPrefixOf [] && k (List.drop c.length [])
  | a :: t => (c.isPrefixOf (a :: t) && k ((a :: t).drop c.length)) ||
      globScan c k t

/-- globRest cs s decides whether s is in the language of the regular
expression .* c1 .* c2 ... .* ck, i.e. the chunks of cs occur in order,
each preceded by an arbitrary filler, with the last chunk ending the
string. -/
def globRest : List Str → Str → Bool
  | [], _ => true
  | [c], s => c.isSuffixOf s
  | c :: c' :: cs, s => globScan c (globRest (c' :: cs)) s

/-- globMatch cs s decides whether s is in the language of the anchored
regular expression c0 .* c1 .* ... .* ck built by matchPattern from the
chunk list cs. -/
def globMatch : List Str → Str → Bool
  | [], s => s.isEmpty
  | [c], s => s == c
  | c :: c' :: cs, s => c.isPrefixOf s && globRest (c' :: cs) (s.drop c.length)

/-- The four characters of the special trailing wildcard suffix. -/
def slashDots : Str := ['/', '.', '.', '.']

/-- matchPattern models matchPattern from internal/mod/mod.go and
internal/search/search.go.  The Go code quotes the pattern, turns a
trailing quoted "/..." into an optional group, replaces every quoted
"..." by ".*" and anchors the result.  The language of that regular
expression is: names matching the pattern with "..." standing for any
(possibly empty) substring, where a pattern with a trailing "/..." also
accepts names matching the bare pattern without that trailing group. -/
def matchPattern (pattern name : Str) : Bool :=
  if slashDots.isSuffixOf pattern then
    globMatch (splitDots (pattern.take (pattern.length - 4))) name ||
      globMatch (splitDots pattern) name
  else
    globMatch (splitDots pattern) name

/-- containsDots reports whether the string contains the wildcard marker
"...", modelling strings.Contains(pattern, "..."). -/
def containsDots : Str → Bool
  | '.' :: '.' :: '.' :: _ => true
  | _ :: rest => containsDots rest
  | [] => false

/-- isLiteral from internal/mod/mod.go: true if the pattern has no
wildcard marker. -/
def isLiteral (pattern : Str) : Bool := !containsDots pattern

/-- isRelativePath from internal/mod/mod.go and internal/search/search.go. -/
def isRelativePath (path : Str) : Bool :=
  path == ['.'] || path == ['.', '.'] ||
    ['.', '/'].isPrefixOf path || ['.', '.', '/'].isPrefixOf path

/-- filepath.IsAbs on Unix: the path begins with a slash. -/
def isAbs (path : Str) : Bool := ['/'].isPrefixOf path

end PatternMatch

namespace I3

/-- digitsVal evaluates a non-empty all-digit string as a decimal number,
and fails otherwise; this is the digit-scanning core of strconv.Atoi.
Go's Atoi additionally fails on 64-bit overflow, which is irrelevant for
the inputs considered by the claims and is not modelled. -/
def digitsVal (s : Str) : Option Nat :=
  if s.isEmpty then none
  else if s.all (fun c => 48 ≤ c.toNat && c.toNat ≤ 57) then
    some (s.foldl (fun a c => 10 * a + (c.toNat - 48)) 0)
  else none

/-- atoi models strconv.Atoi: an optional sign followed by a non-empty
run of decimal digits. -/
def atoi (s : Str) : Option Int :=
  match s with
  | '+' :: rest => (digitsVal rest).map (fun n => (n : Int))
  | '-' :: rest => (digitsVal rest).map (fun n => -(n : Int))
  | _ => (digitsVal s).map (fun n => (n : Int))

/-- parse from internal/i3/i3.go: the string as a number, or 0 on a parse
error or a negative value. -/
def parse (s : Str) : Nat :=
  match atoi s with
  | none => 0
  | some n => if n < 0 then 0 else n.toNat

/-- indexByte models strings.IndexByte: the position of the first
occurrence of the character, if any. -/
def indexByte (ch : Char) : Str → Option Nat
  | [] => none
  | c :: rest => if c == ch then some 0 else (indexByte ch rest).map (· + 1)

/-- A workspace as reported by the i3 IPC get_workspaces reply. -/
structure Workspace where
  Num : Int
  Name : Str
  Visible : Bool
  Focused : Bool
deriving DecidableEq

/-- Number models the workspace.Number method from internal/i3/i3.go:
parse the whole name, and otherwise the part before the first colon. -/
def Workspace.Number (w : Workspace) : Nat :=
  let num := parse w.Name
  if 0 < num then num
  else
    match indexByte ':' w.Name with
    | none => 0
    | some i => parse (w.Name.take i)

/-- The loop body of NextWorkspace from internal/i3/i3.go, with the
current candidate number n made explicit. -/
def nextFrom (n : Nat) : List Workspace → Nat
  | [] => n
  | w :: ws =>
    let num := w.Number
    if num == 0 then nextFrom n ws
    else if n < num then n
    else nextFrom (n + 1) ws

/-- NextWorkspace from internal/i3/i3.go, with the workspace list (the
reply of the external IPC collaborator) passed explicitly; the IPC
transport itself is out of scope. -/
def NextWorkspace (list : List Workspace) : Nat := nextFrom 1 list

/-- natToChars renders a natural number in decimal, modelling the %d verb
of fmt.Sprintf for the non-negative values reaching it. -/
def natToChars (n : Nat) : Str :=
  if h : n < 10 then [Char.ofNat (48 + n)]
  else natToChars (n / 10) ++ [Char.ofNat (48 + n % 10)]
decreasing_by exact Nat.div_lt_self (Nat.lt_of_lt_of_le (by decide) (Nat.le_of_not_lt h)) (by decide)

/-- formatTarget composes the workspace target string "n:name" built by
the Workspace function in internal/i3/i3.go. -/
def formatTarget (n : Nat) (name : Str) : Str :=
  natToChars n ++ ':' :: name

/-- workspaceMsg is the full command string "workspace n:name" sent by
the Workspace function over the IPC channel. -/
def workspaceMsg (n : Nat) (name : Str) : Str :=
  "workspace ".data ++ formatTarget n name

end I3

namespace GoPath

/-- splitSlash splits a path at every slash, keeping empty segments. -/
def splitSlash : Str → List Str
  | '/' :: rest => [] :: splitSlash rest
  | c :: rest =>
    match splitSlash rest with
    | seg :: segs => (c :: seg) :: segs
    | [] => [[c]]
  | [] => [[]]

/-- cleanLoop processes the segments of a path for filepath.Clean: empty
and dot segments vanish, and a dot-dot segment pops the previous segment
unless the path is rooted at the top or the previous segment is itself a
dot-dot.  The accumulator holds the surviving segments in reverse. -/
def cleanLoop (acc : List Str) (segs : List Str) (rooted : Bool) : List Str :=
  match segs with
  | [] => acc.reverse
  | s :: rest =>
    if s = [] ∨ s = ['.'] then cleanLoop acc rest rooted
    else if s = ['.', '.'] then
      match acc with
      | [] =>
        if rooted then cleanLoop [] rest rooted
        else cleanLoop [['.', '.']] rest rooted
      | t :: acc' =>
        if t = ['.', '.'] then cleanLoop (s :: t :: acc') rest rooted
        else cleanLoop acc' rest rooted
    else cleanLoop (s :: acc) rest rooted

/-- clean models path/filepath.Clean on Unix paths. -/
def clean (p : Str) : Str :=
  if p = [] then ['.']
  else
    let rooted := p.headD ' ' = '/'
    let segs := cleanLoop [] (splitSlash p) rooted
    let body := List.intercalate ['/'] segs
    if rooted then '/' :: body
    else if body = [] then ['.']
    else body

/-- filepathJoinList models path/filepath.Join: the non-empty elements
joined by slashes and cleaned, or the empty string when every element is
empty. -/
def filepathJoinList (elems : List Str) : Str :=
  let ne := elems.filter (fun e => !e.isEmpty)
  if ne.isEmpty then [] else clean (List.intercalate ['/'] ne)

/-- filepathJoin is the two-argument form of filepath.Join used by the
placement checks. -/
def filepathJoin (a b : Str) : Str := filepathJoinList [a, b]

/-- dropCommon strips the common leading segments of two segment lists. -/
def dropCommon : List Str → List Str → List Str × List Str
  | a :: as, b :: bs => if a = b then dropCommon as bs else (a :: as, b :: bs)
  | as, bs => (as, bs)

/-- filepathRel models path/filepath.Rel for the well-formed inputs
arising here (both paths cleaned, identically rooted): the target
re-expressed relative to the base by stripping the common leading
segments and ascending once per remaining base segment.  The error cases
of the Go function (mismatched rootedness) yield the empty string, whose
error value the caller in internal/search/search.go discards. -/
def filepathRel (base targ : Str) : Str :=
  let bc := clean base
  let tc := clean targ
  if bc = tc then ['.']
  else if (bc.headD ' ' = '/') ≠ (tc.headD ' ' = '/') then []
  else
    let bs := (splitSlash bc).filter (fun s => ¬(s = [] ∨ s = ['.']))
    let ts := (splitSlash tc).filter (fun s => ¬(s = [] ∨ s = ['.']))
    let (br, tr) := dropCommon bs ts
    let segs := List.replicate br.length ['.', '.'] ++ tr
    if segs = [] then ['.'] else List.intercalate ['/'] segs

end GoPath

/-- A parsed go.mod manifest: the optional module directive (path and
version) and the optional go directive, the only two directives the
loaders read. -/
structure Manifest where
  module : Option (Str × Str)
  go : Option Str
deriving DecidableEq

namespace SearchPkg

/-- Module from internal/search/search.go. -/
structure Module where
  Path : Str
  Version : Str
  Main : Bool
  Dir : Str
  GoMod : Str
  GoVersion : Str
deriving DecidableEq

/-- Match from internal/search/search.go. -/
structure Match where
  Pattern : Str
  Literal : Bool
  Modules : List Module

/-- A filesystem entry found by the walk in MatchModules: the directory
holding a go.mod file, and its content, parsed; none stands for a file
that could not be read or parsed after the walk saw it. -/
structure Entry where
  dir : Str
  mf : Option Manifest

/-- srcRoot is the walk root derived from one $GOPATH entry in
MatchModules: Clean(Join(dirpath, "src")) plus a trailing separator. -/
def srcRoot (dirpath : Str) : Str :=
  GoPath.clean (GoPath.filepathJoin dirpath "src".data) ++ ['/']

/-- load from internal/search/search.go, over a parsed manifest.  A
missing manifest is the per-candidate hard error; a missing module
directive falls back to the directory relative to the root; the go
directive (or its default) is written into the GoMod field exactly as
the source does; finally the placement of the declared path under the
root is checked. -/
def load (root dirpath : Str) (mf : Option Manifest) : Except Str Module :=
  match mf with
  | none => .error ("read ".data ++ dirpath)
  | some file =>
    let mod0 : Module :=
      { Path := [], Version := [], Main := true, Dir := dirpath
        GoMod := GoPath.filepathJoin dirpath "go.mod".data, GoVersion := [] }
    let mod1 :=
      match file.module with
      | some (p, v) => { mod0 with Path := p, Version := v }
      | none => { mod0 with Path := GoPath.filepathRel root dirpath }
    let mod2 :=
      match file.go with
      | some v => { mod1 with GoMod := v }
      | none => { mod1 with GoMod := "1.13".data }
    if GoPath.filepathJoin root mod2.Path = dirpath then .ok mod2
    else .error ("module not in GOPATH ".data ++ mod2.Path)

/-- MatchModules from internal/search/search.go, with the filesystem
walk abstracted into an explicit list: for each $GOPATH entry, the
go.mod locations found under it in walk order.  Candidates that fail to
load are skipped with a diagnostic; the rest are filtered by the
compiled pattern applied to the effective module path. -/
def MatchModules (fs : List (Str × List Entry)) (pattern : Str) : Match :=
  { Pattern := pattern
    Literal := PatternMatch.isLiteral pattern
    Modules := fs.flatMap fun gd =>
      gd.2.filterMap fun e =>
        match load (srcRoot gd.1) e.dir e.mf with
        | .error _ => none
        | .ok m => if PatternMatch.matchPattern pattern m.Path then some m else none }

/-- ModulePath from internal/search/search.go: absolute and relative
patterns yield an empty match with a diagnostic; otherwise the match is
returned, with only warnings printed for zero or many matches. -/
def ModulePath (fs : List (Str × List Entry)) (pattern : Str) : Match :=
  if PatternMatch.isAbs pattern then
    { Pattern := [], Literal := false, Modules := [] }
  else if PatternMatch.isRelativePath pattern then
    { Pattern := [], Literal := false, Modules := [] }
  else MatchModules fs pattern

/-- Resolve from internal/search/search.go: exactly one matched module
succeeds, any other count is the single unable-to-resolve error. -/
def Resolve (fs : List (Str × List Entry)) (pattern : Str) : Except Str Module :=
  let match_ := ModulePath fs pattern
  match match_.Modules with
  | [m] => .ok m
  | _ => .error ("resolve ".data ++ pattern ++ ": unable to resolve".data)

end SearchPkg

namespace ModPkg

/-- Module as returned by the external modlist collaborator used in
internal/mod/mod.go (go list -m): the declared module path and the
module directory are the fields this engine reads. -/
structure Module where
  Path : Str
  Dir : Str
deriving DecidableEq

/-- Match from internal/mod/mod.go. -/
structure Match where
  Pattern : Str
  Literal : Bool
  Modules : List Module
deriving DecidableEq

/-- A go.mod location found by the walk, with the result of the external
modlist loader for its directory (none when that loader failed). -/
structure Entry where
  dir : Str
  listed : Option Module
deriving DecidableEq

/-- load from internal/mod/mod.go: the module reported by the external
modlist loader is accepted only if joining any $GOPATH entry, "src" and
the declared module path yields exactly the candidate directory. -/
def load (roots : List Str) (dirpath : Str) (listed : Option Module) :
    Except Str Module :=
  match listed with
  | none => .error ("go list failed in ".data ++ dirpath)
  | some mod =>
    if roots.any fun root =>
        GoPath.filepathJoinList [root, "src".data, mod.Path] = dirpath then
      .ok mod
    else .error ("module ".data ++ mod.Path ++ ": not in GOPATH".data)

/-- MatchModules from internal/mod/mod.go, with the walk abstracted into
the list of go.mod locations found under the $GOPATH roots in walk
order.  Load failures are printed and skipped; surviving modules are
kept when the compiled pattern accepts their declared path. -/
def MatchModules (roots : List Str) (entries : List Entry) (pattern : Str) :
    Match :=
  { Pattern := pattern
    Literal := PatternMatch.isLiteral pattern
    Modules := entries.filterMap fun e =>
      match load roots e.dir e.listed with
      | .error _ => none
      | .ok m =>
        if PatternMatch.matchPattern pattern m.Path then some m else none }

/-- goQuote models the %q verb of fmt.Errorf for the plain pattern
strings involved here: the string wrapped in double quotes. -/
def goQuote (s : Str) : Str := '"' :: s ++ ['"']

/-- resolveErr builds the error strings of Resolve in
internal/mod/mod.go: "resolve: %q: <reason>". -/
def resolveErr (pattern reason : Str) : Str :=
  "resolve: ".data ++ goQuote pattern ++ ": ".data ++ reason

/-- Resolve from internal/mod/mod.go: absolute and relative patterns are
rejected before any matching; then zero matches, a unique match and
multiple matches are told apart, the error carrying only the pattern. -/
def Resolve (roots : List Str) (entries : List Entry) (pattern : Str) :
    Except Str Module :=
  if PatternMatch.isAbs pattern then
    .error (resolveErr pattern "absolute path".data)
  else if PatternMatch.isRelativePath pattern then
    .error (resolveErr pattern "relative path".data)
  else
    let m := MatchModules roots entries pattern
    match m.Modules with
    | [] => .error (resolveErr pattern "no modules matched".data)
    | [mod] => .ok mod
    | _ :: _ :: _ => .error (resolveErr pattern "multiple modules matched".data)

end ModPkg

namespace LoadPkg

/-- importPathOKChar models the per-character test of
golang.org/x/mod/module for import paths: ASCII letters of both cases,
digits, dash, dot, underscore and tilde. -/
def importPathOKChar (c : Char) : Bool :=
  c = '-' || c = '.' || c = '_' || c = '~' ||
    ('0' ≤ c && c ≤ '9') || ('a' ≤ c && c ≤ 'z') || ('A' ≤ c && c ≤ 'Z')

/-- checkElem models the per-element test of
golang.org/x/mod/module.CheckImportPath: an element must be non-empty,
must not consist only of dots, must not end in a dot and must use only
allowed characters.  (For import paths, unlike module paths, a leading
dot is allowed; the Windows reserved-name checks are not modelled, no
claim exercising them.) -/
def checkElem (elem : Str) : Bool :=
  !elem.isEmpty &&
    !(elem.all (· = '.')) &&
    !(elem.getLastD ' ' = '.') &&
    elem.all importPathOKChar

/-- checkImportPath models golang.org/x/mod/module.CheckImportPath, the
validation the loader applies to a declared module path: the path must
be non-empty, must not start with a dash, and every slash-separated
element must pass checkElem (which in particular rules out leading,
trailing and doubled slashes).  Notably it does not require a dot in the
first path element; that stricter rule belongs to module.CheckPath,
which the source deliberately does not call (see the comment in
internal/load/mod.go). -/
def checkImportPath (path : Str) : Bool :=
  !path.isEmpty &&
    !(path.headD ' ' = '-') &&
    (GoPath.splitSlash path).all checkElem

/-- Module from internal/load/mod.go. -/
structure Module where
  Path : Str
  Version : Str
  Main : Bool
  Dir : Str
  GoMod : Str
  GoVersion : Str
  Root : Str
  Error : Option Str
deriving DecidableEq

/-- Name computes the short name of a module path, as the Name method in
internal/load/mod.go: the part after the last slash when that slash sits
at a positive index, and the whole path otherwise. -/
def lastIndexByte (ch : Char) : Str → Option Nat
  | [] => none
  | c :: rest =>
    match lastIndexByte ch rest with
    | some i => some (i + 1)
    | none => if c == ch then some 0 else none

/-- Name from the Module.Name method of internal/load/mod.go, as a
function of the module path. -/
def Name (path : Str) : Str :=
  match lastIndexByte '/' path with
  | some i => if 0 < i then path.drop (i + 1) else path
  | none => path

/-- Module.Name wraps Name, mirroring the method receiver. -/
def Module.Name (m : Module) : Str := LoadPkg.Name m.Path

/-- Raw is the module value handed to load by the search iteration used
by internal/load/mod.go (its search.Module carries a Root field). -/
structure Raw where
  Path : Str
  Dir : Str
  GoMod : Str
  Root : Str
deriving DecidableEq

/-- load from internal/load/mod.go, over the re-read and parsed
manifest.  A declared module path is validated with checkImportPath,
recording a failure in the Error field; the go directive (or its "1.13"
default) is written into the GoMod field exactly as the source does; and
a declared path inconsistent with the module directory under the root
records a placement error.  With a readable manifest the function never
fails: rejected candidates stay reportable. -/
def load (raw : Raw) (file : Manifest) : Module :=
  let mod0 : Module :=
    { Path := raw.Path, Version := [], Main := false, Dir := raw.Dir
      GoMod := raw.GoMod, GoVersion := [], Root := raw.Root, Error := none }
  let mod1 :=
    match file.module with
    | some (p, v) =>
      let e :=
        if checkImportPath p then none
        else some ("module ".data ++ p ++ ": invalid importpath".data)
      { mod0 with Path := p, Version := v, Error := e }
    | none => mod0
  let mod2 :=
    match file.go with
    | some v => { mod1 with GoMod := v }
    | none => { mod1 with GoMod := "1.13".data }
  if GoPath.filepathJoin mod2.Root mod2.Path = mod2.Dir then mod2
  else
    { mod2 with
      Error := some ("module ".data ++ mod2.Path ++ ": not in GOPATH: ".data
        ++ mod2.Dir) }

/-- loadE wraps load with the per-candidate hard failure of a manifest
that can no longer be read: only that case makes load itself fail. -/
def loadE (raw : Raw) (mf : Option Manifest) : Except Str Module :=
  match mf with
  | none => .error ("read ".data ++ raw.GoMod)
  | some file => .ok (load raw file)

/-- ModulesAndErrors from internal/load/mod.go, over the raw modules
produced by the search iteration together with their re-read manifests:
one Module per candidate, failed ones carrying a non-nil Error. -/
def ModulesAndErrors (raws : List (Raw × Manifest)) : List Module :=
  raws.map fun rm => load rm.1 rm.2

/-- Modules from internal/load/mod.go: the candidates whose load
recorded an error are printed and dropped, the rest are returned. -/
def Modules (raws : List (Raw × Manifest)) : List Module :=
  (ModulesAndErrors raws).filter fun m => m.Error = none

end LoadPkg

namespace I3

/-- specShapeVal is the spec-side reading of an accepted number shape: an
optional leading plus sign followed by a non-empty run of decimal
digits, valued as that number. -/
def specShapeVal (s : Str) : Option Nat :=
  match s with
  | '+' :: rest => digitsVal rest
  | _ => digitsVal s

/-- specParseNumber is the spec-side characterization of the effective
workspace number: the value of the whole label when it has an accepted
number shape, the value of the part before the first colon when that
part has an accepted number shape, and 0 otherwise. -/
def specParseNumber (s : Str) : Nat :=
  match indexByte ':' s with
  | none => (specShapeVal s).getD 0
  | some i => (specShapeVal (s.take i)).getD 0

end I3

namespace LoadPkg

/-- firstSegmentContainsDot is the spec-side test of the claimed
validation rule: the first slash-separated segment of the identity
contains a dot. -/
def firstSegmentContainsDot (path : Str) : Bool :=
  (path.takeWhile (fun c => c ≠ '/')).any (fun c => c = '.')

end LoadPkg

/-- mainWorkspaceMsg is the workspace switch command composed by main
(the unnamed main.go iteration): the workspace number together with the
module short name as label. -/
def mainWorkspaceMsg (num : Nat) (m : LoadPkg.Module) : Str :=
  I3.workspaceMsg num m.Name

namespace PatternMatch

theorem splitDots_ne_nil (s : Str) : splitDots s ≠ [] := by
  induction s using splitDots.induct <;> simp_all [splitDots]

theorem globRest_cons₂ (c c' : Str) (cs : List Str) (s : Str) :
    globRest (c :: c' :: cs) s =
      ((c.isPrefixOf s && globRest (c' :: cs) (s.drop c.length)) ||
        (match s with
         | [] => false
         | _ :: t => globRest (c :: c' :: cs) t)) := by
  cases s with
  | nil =>
    show globScan _ _ [] = _
    simp [globScan]
  | cons a t =>
    show globScan _ _ (a :: t) = _
    rw [globScan]
    rfl

theorem globRest_append_left (cs : List Str) (u s : Str)
    (h : globRest cs s = true) : globRest cs (u ++ s) = true := by
  induction u with
  | nil => exact h
  | cons a u ih =>
    match cs with
    | [] => simp [globRest]
    | [c] =>
      simp only [globRest, List.isSuffixOf_iff_suffix] at h ⊢
      exact h.trans (List.suffix_append (a :: u) s)
    | c :: c' :: cs =>
      rw [globRest_cons₂]
      have : a :: u ++ s = a :: (u ++ s) := rfl
      rw [this]
      apply Bool.or_eq_true_iff.mpr
      right
      exact ih

theorem globRest_of_globMatch (cs : List Str) (s : Str)
    (h : globMatch cs s = true) : globRest cs s = true := by
  match cs with
  | [] => simp [globRest]
  | [c] =>
    simp only [globMatch, beq_iff_eq] at h
    simp [globRest, h, List.isSuffixOf_iff_suffix]
  | c :: c' :: cs =>
    simp only [globMatch, Bool.and_eq_true] at h
    rw [globRest_cons₂]
    apply Bool.or_eq_true_iff.mpr
    left
    simp [h.1, h.2]

theorem globMatch_splitDots_self (s : Str) :
    globMatch (splitDots s) s = true := by
  induction s using splitDots.induct with
  | case1 rest ih =>
    rw [splitDots.eq_1]
    obtain ⟨ch, chs, he⟩ : ∃ ch chs, splitDots rest = ch :: chs := by
      cases hsd : splitDots rest with
      | nil => exact absurd hsd (splitDots_ne_nil rest)
      | cons ch chs => exact ⟨ch, chs, rfl⟩
    rw [he]
    show globMatch ([] :: ch :: chs) _ = true
    simp only [globMatch, List.isPrefixOf_nil_left, List.length_nil, List.drop_zero,
      Bool.true_and]
    have : ('.' :: '.' :: '.' :: rest : Str) = ['.', '.', '.'] ++ rest := rfl
    rw [this, ← he]
    exact globRest_append_left _ _ _ (globRest_of_globMatch _ _ ih)
  | case2 c rest hnd chunk chunks he ih =>
    rw [splitDots.eq_2 c rest hnd, he]
    match chunks, he with
    | [], he =>
      show (c :: rest == c :: chunk) = true
      rw [he] at ih
      simp only [globMatch, beq_iff_eq] at ih
      simp [ih]
    | c2 :: cs2, he =>
      rw [he] at ih
      simp only [globMatch, Bool.and_eq_true] at ih
      show (((c :: chunk).isPrefixOf (c :: rest)) &&
        globRest (c2 :: cs2) ((c :: rest).drop (c :: chunk).length)) = true
      simp only [List.isPrefixOf, beq_self_eq_true, Bool.true_and,
        List.length_cons, List.drop_succ_cons]
      simp [ih.1, ih.2]
  | case3 c rest hnd he ih => exact absurd he (splitDots_ne_nil rest)
  | case4 => simp [splitDots, globMatch]

end PatternMatch

namespace PatternMatch

/-- appLast appends a string to the last chunk of a non-empty chunk
list. -/
def appLast : List Str → Str → List Str
  | [], v => [v]
  | [c], v => [c ++ v]
  | c :: c' :: cs, v => c :: appLast (c' :: cs) v

theorem splitDots_append_slashDots (p : Str) :
    splitDots (p ++ slashDots) = appLast (splitDots p) ['/'] ++ [[]] := by
  induction p using splitDots.induct with
  | case1 rest ih =>
    show splitDots ('.' :: '.' :: '.' :: (rest ++ slashDots)) = _
    rw [splitDots.eq_1, ih]
    obtain ⟨ch, chs, he⟩ : ∃ ch chs, splitDots rest = ch :: chs := by
      cases hsd : splitDots rest with
      | nil => exact absurd hsd (splitDots_ne_nil rest)
      | cons ch chs => exact ⟨ch, chs, rfl⟩
    rw [splitDots.eq_1, he]
    cases chs <;> rfl
  | case2 c rest hnd chunk chunks he ih =>
    have hnd' : ∀ r, c = '.' → rest ++ slashDots = '.' :: '.' :: r → False := by
      intro r hc hr
      match rest, hr with
      | [], hr => simp [slashDots] at hr
      | [a], hr =>
        simp only [List.cons_append, List.nil_append, List.cons.injEq,
          slashDots] at hr
        exact absurd hr.2.1 (by decide)
      | a :: b :: t, hr =>
        simp only [List.cons_append, List.cons.injEq] at hr
        exact hnd t hc (by rw [hr.1, hr.2.1])
    show splitDots (c :: (rest ++ slashDots)) = _
    rw [splitDots.eq_2 c _ hnd', ih, splitDots.eq_2 c rest hnd, he]
    cases chunks <;> rfl
  | case3 c rest hnd he ih => exact absurd he (splitDots_ne_nil rest)
  | case4 => rfl

theorem globRest_empty_chunk (t : Str) : globRest [[]] t = true := by
  simp [globRest, List.isSuffixOf_iff_suffix, List.nil_suffix]

theorem globRest_single_app (w c v u : Str) :
    globRest [c ++ v, []] (w ++ (c ++ v) ++ u) = true := by
  induction w with
  | nil =>
    rw [globRest_cons₂]
    apply Bool.or_eq_true_iff.mpr
    left
    simp only [List.nil_append, Bool.and_eq_true, List.isPrefixOf_iff_prefix]
    exact ⟨List.prefix_append _ _, globRest_empty_chunk _⟩
  | cons a w ih =>
    rw [globRest_cons₂]
    apply Bool.or_eq_true_iff.mpr
    right
    show globRest [c ++ v, []] (w ++ (c ++ v) ++ u) = true
    exact ih

theorem appLast_cons₂ (c c' : Str) (cs : List Str) (v : Str) :
    appLast (c :: c' :: cs) v = c :: appLast (c' :: cs) v := by
  rw [appLast]

theorem globRest_appLast (cs : List Str) (t : Str) :
    cs ≠ [] → globRest cs t = true →
      ∀ v u, globRest (appLast cs v ++ [[]]) (t ++ v ++ u) = true := by
  induction cs generalizing t with
  | nil => intro h; exact absurd rfl h
  | cons c cs' ih =>
    cases cs' with
    | nil =>
      intro _ h v u
      simp only [globRest, List.isSuffixOf_iff_suffix] at h
      obtain ⟨w, hw⟩ := h
      show globRest [c ++ v, []] (t ++ v ++ u) = true
      rw [← hw, List.append_assoc w c v]
      exact globRest_single_app w c v u
    | cons c2 cs2 =>
      intro _ h v u
      obtain ⟨ch, chs, he⟩ : ∃ ch chs,
          appLast (c2 :: cs2) v ++ [[]] = ch :: chs := by
        cases cs2 with
        | nil => exact ⟨c2 ++ v, [[]], rfl⟩
        | cons c3 cs3 =>
          exact ⟨c2, appLast (c3 :: cs3) v ++ [[]], by rw [appLast_cons₂]; rfl⟩
      have key : ∀ s : Str,
          (c.isPrefixOf s && globRest (c2 :: cs2) (s.drop c.length)) = true →
          globRest (appLast (c :: c2 :: cs2) v ++ [[]]) (s ++ v ++ u) = true := by
        intro s h1
        rw [appLast_cons₂, List.cons_append, he, globRest_cons₂]
        apply Bool.or_eq_true_iff.mpr
        left
        simp only [Bool.and_eq_true, List.isPrefixOf_iff_prefix] at h1 ⊢
        have hle : c.length ≤ s.length := h1.1.length_le
        constructor
        · exact h1.1.trans (by rw [List.append_assoc]; exact List.prefix_append _ _)
        · have hd : (s ++ v ++ u).drop c.length = s.drop c.length ++ v ++ u := by
            rw [List.drop_append_of_le_length (by simp; omega),
              List.drop_append_of_le_length hle]
          rw [hd, ← he]
          exact ih (s.drop c.length) (by simp) h1.2 v u
      revert h
      induction t with
      | nil =>
        intro h
        rw [globRest_cons₂] at h
        rcases Bool.or_eq_true_iff.mp h with h1 | h2
        · exact key [] h1
        · simp at h2
      | cons a t2 iht =>
        intro h
        rw [globRest_cons₂] at h
        rcases Bool.or_eq_true_iff.mp h with h1 | h2
        · exact key (a :: t2) h1
        · have hgoal := iht h2
          rw [appLast_cons₂, List.cons_append, he, globRest_cons₂]
          apply Bool.or_eq_true_iff.mpr
          right
          show globRest (c :: ch :: chs) (t2 ++ v ++ u) = true
          rw [← he, ← List.cons_append, ← appLast_cons₂]
          exact hgoal

theorem globMatch_appLast (cs : List Str) (s : Str) (v u : Str)
    (hne : cs ≠ []) (h : globMatch cs s = true) :
    globMatch (appLast cs v ++ [[]]) (s ++ v ++ u) = true := by
  cases cs with
  | nil => exact absurd rfl hne
  | cons c rest =>
  cases rest with
  | nil =>
    simp only [globMatch, beq_iff_eq] at h
    rw [h]
    show globMatch [c ++ v, []] (c ++ v ++ u) = true
    simp only [globMatch, Bool.and_eq_true, List.isPrefixOf_iff_prefix]
    exact ⟨List.prefix_append _ _, globRest_empty_chunk _⟩
  | cons c' cs =>
    simp only [globMatch, Bool.and_eq_true, List.isPrefixOf_iff_prefix] at h
    rw [appLast_cons₂, List.cons_append]
    obtain ⟨ch, chs, he⟩ : ∃ ch chs, appLast (c' :: cs) v ++ [[]] = ch :: chs := by
      cases cs with
      | nil => exact ⟨c' ++ v, [[]], rfl⟩
      | cons c2 cs2 => exact ⟨c', appLast (c2 :: cs2) v ++ [[]], by rw [appLast_cons₂]; rfl⟩
    rw [he]
    simp only [globMatch, Bool.and_eq_true, List.isPrefixOf_iff_prefix]
    have hle : c.length ≤ s.length := h.1.length_le
    constructor
    · exact h.1.trans (by rw [List.append_assoc]; exact List.prefix_append _ _)
    · have hd : (s ++ v ++ u).drop c.length = s.drop c.length ++ v ++ u := by
        rw [List.drop_append_of_le_length (by simp; omega),
          List.drop_append_of_le_length hle]
      rw [hd, ← he]
      exact globRest_appLast _ _ (by simp) h.2 v u

theorem splitDots_of_not_containsDots (s : Str)
    (h : containsDots s = false) : splitDots s = [s] := by
  induction s using splitDots.induct with
  | case1 rest ih => simp [containsDots] at h
  | case2 c rest hnd chunk chunks he ih =>
    have hc : containsDots (c :: rest) = containsDots rest := by
      rw [containsDots.eq_2 c rest hnd]
    rw [hc] at h
    rw [splitDots.eq_2 c rest hnd, he]
    have := ih h
    rw [he] at this
    injection this with h1 h2
    rw [h1, h2]
  | case3 c rest hnd he ih => exact absurd he (splitDots_ne_nil rest)
  | case4 => simp [containsDots, splitDots] at *

theorem slashDots_isSuffixOf_append (pre : Str) :
    slashDots.isSuffixOf (pre ++ slashDots) = true := by
  simp [List.isSuffixOf_iff_suffix, List.suffix_append]

theorem take_append_slashDots (pre : Str) :
    (pre ++ slashDots).take ((pre ++ slashDots).length - 4) = pre := by
  have hl : (pre ++ slashDots).length - 4 = pre.length := by
    simp [slashDots]
  rw [hl]
  exact List.take_left' rfl

end PatternMatch

namespace PatternMatch

theorem matchPattern_trailing_self (pre : Str) :
    matchPattern (pre ++ slashDots) pre = true := by
  rw [matchPattern, if_pos (slashDots_isSuffixOf_append pre),
    take_append_slashDots]
  apply Bool.or_eq_true_iff.mpr
  left
  exact globMatch_splitDots_self pre

theorem matchPattern_trailing_nested (pre rest : Str) :
    matchPattern (pre ++ slashDots) (pre ++ '/' :: rest) = true := by
  rw [matchPattern, if_pos (slashDots_isSuffixOf_append pre)]
  apply Bool.or_eq_true_iff.mpr
  right
  rw [splitDots_append_slashDots]
  have hr : pre ++ '/' :: rest = pre ++ ['/'] ++ rest := by simp
  rw [hr]
  exact globMatch_appLast _ _ _ _ (splitDots_ne_nil pre)
    (globMatch_splitDots_self pre)

theorem matchPattern_trailing_literal (pre name : Str)
    (h : containsDots pre = false) :
    matchPattern (pre ++ slashDots) name = true ↔
      name = pre ∨ (pre ++ ['/']) <+: name := by
  rw [matchPattern, if_pos (slashDots_isSuffixOf_append pre),
    take_append_slashDots, splitDots_append_slashDots,
    splitDots_of_not_containsDots pre h]
  show ((name == pre) || globMatch [pre ++ ['/'], []] name) = true ↔ _
  have hm : globMatch [pre ++ ['/'], []] name =
      (pre ++ ['/']).isPrefixOf name := by
    simp only [globMatch, globRest_empty_chunk, Bool.and_true]
  rw [hm]
  simp [Bool.or_eq_true_iff, List.isPrefixOf_iff_prefix]

end PatternMatch

/-- C4: for every pattern ending in the trailing recursive-wildcard
suffix "/...", the compiled predicate matches the identity equal to the
pattern's stem (the pattern without that trailing segment) and every
identity nested under the stem; and for a wildcard-free stem it matches
exactly those identities, i.e. the whole identity must match, never a
mere substring. -/
theorem C4_trailing_wildcard (pre name rest : Str) :
    PatternMatch.matchPattern (pre ++ PatternMatch.slashDots) pre = true ∧
    PatternMatch.matchPattern (pre ++ PatternMatch.slashDots)
      (pre ++ '/' :: rest) = true ∧
    (PatternMatch.containsDots pre = false →
      (PatternMatch.matchPattern (pre ++ PatternMatch.slashDots) name = true ↔
        name = pre ∨ (pre ++ ['/']) <+: name)) :=
  ⟨PatternMatch.matchPattern_trailing_self pre,
   PatternMatch.matchPattern_trailing_nested pre rest,
   PatternMatch.matchPattern_trailing_literal pre name⟩

/-- Witness for C4 at the pattern "a.com/...": it matches the stem
"a.com" and the nested "a.com/x", and rejects "xa.com/x" although the
stem occurs inside it as a substring. -/
theorem C4_trailing_wildcard_witness :
    PatternMatch.matchPattern "a.com/...".data "a.com".data = true ∧
    PatternMatch.matchPattern "a.com/...".data "a.com/x".data = true ∧
    PatternMatch.matchPattern "a.com/...".data "xa.com/x".data = false := by
  have hp : ("a.com/...".data : Str) =
      "a.com".data ++ PatternMatch.slashDots := by decide
  have h := C4_trailing_wildcard "a.com".data "xa.com/x".data "x".data
  refine ⟨?_, ?_, ?_⟩
  · rw [hp]; exact h.1
  · have hn : ("a.com/x".data : Str) = "a.com".data ++ '/' :: "x".data := by
      decide
    rw [hp, hn]; exact h.2.1
  · have hiff := h.2.2 (by decide)
    rw [hp]
    cases hb : PatternMatch.matchPattern
        ("a.com".data ++ PatternMatch.slashDots) "xa.com/x".data with
    | false => rfl
    | true => exact absurd (hiff.mp hb) (by decide)

namespace I3

theorem parse_eq_specShape (s : Str) : parse s = (specShapeVal s).getD 0 := by
  cases s with
  | nil => rfl
  | cons c r =>
    by_cases hp : c = '+'
    · subst hp
      rw [parse, specShapeVal]
      cases h : digitsVal r with
      | none => simp [atoi, h]
      | some v => simp [atoi, h]
    · by_cases hm : c = '-'
      · subst hm
        have hd : digitsVal ('-' :: r) = none := by
          simp only [digitsVal, List.isEmpty_cons, if_false, Bool.false_eq_true]
          have hall : (('-' :: r).all fun c => 48 ≤ c.toNat && c.toNat ≤ 57)
              = false := by
            simp [List.all_cons]
          simp [hall]
        rw [parse, specShapeVal.eq_def]
        cases h : digitsVal r with
        | none => simp [atoi, h, hd]
        | some v => simp [atoi, h, hd]
      · have ha : atoi (c :: r) =
            (digitsVal (c :: r)).map (fun n => (n : Int)) := by
          rw [atoi.eq_def]
          split
          · simp_all
          · simp_all
          · rfl
        have hs : specShapeVal (c :: r) = digitsVal (c :: r) := by
          rw [specShapeVal.eq_def]
          split
          · simp_all
          · rfl
        rw [parse, ha, hs]
        cases h : digitsVal (c :: r) with
        | none => simp [h]
        | some v => simp [h]

theorem digitsVal_eq_none_of_colon {s : Str} (h : ':' ∈ s) :
    digitsVal s = none := by
  rw [digitsVal]
  have hall : (s.all fun c => 48 ≤ c.toNat && c.toNat ≤ 57) = false := by
    rw [List.all_eq_false]
    exact ⟨':', h, by decide⟩
  simp [hall]

theorem specShapeVal_eq_none_of_colon {s : Str} (h : ':' ∈ s) :
    specShapeVal s = none := by
  rw [specShapeVal.eq_def]
  split
  · rcases List.mem_cons.mp h with h1 | h2
    · exact absurd h1 (by decide)
    · exact digitsVal_eq_none_of_colon h2
  · exact digitsVal_eq_none_of_colon h

theorem parse_eq_zero_of_colon {s : Str} (h : ':' ∈ s) : parse s = 0 := by
  rw [parse_eq_specShape, specShapeVal_eq_none_of_colon h]
  rfl

theorem indexByte_mem {ch : Char} {s : Str} {i : Nat}
    (h : indexByte ch s = some i) : ch ∈ s := by
  induction s generalizing i with
  | nil => simp [indexByte] at h
  | cons c r ih =>
    rw [indexByte] at h
    by_cases hc : c == ch
    · exact List.mem_cons.mpr (Or.inl (beq_iff_eq.mp hc).symm)
    · rw [if_neg hc] at h
      rcases Option.map_eq_some'.mp h with ⟨j, hj, _⟩
      exact List.mem_cons.mpr (Or.inr (ih hj))

theorem Number_eq_specParseNumber (w : Workspace) :
    w.Number = specParseNumber w.Name := by
  rw [Workspace.Number, specParseNumber]
  cases hidx : indexByte ':' w.Name with
  | none =>
    simp only [hidx]
    by_cases h0 : 0 < parse w.Name
    · rw [if_pos h0, parse_eq_specShape]
    · rw [if_neg h0]
      have hz : parse w.Name = 0 := by omega
      rw [← parse_eq_specShape, hz]
  | some i =>
    have hc : ':' ∈ w.Name := indexByte_mem hidx
    have h0 : parse w.Name = 0 := parse_eq_zero_of_colon hc
    simp only [hidx, h0]
    rw [if_neg (by omega)]
    exact parse_eq_specShape _

end I3

/-- C5 (amended): the effective workspace number accepts the label
shapes given by specParseNumber, namely a non-negative decimal integer,
optionally preceded by a plus sign as strconv.Atoi allows, either alone
or before a colon; every other label yields 0, and the four spec
examples hold. -/
theorem C5_parse_number (w : I3.Workspace) :
    w.Number = I3.specParseNumber w.Name ∧
    (I3.Workspace.mk 0 "5".data false false).Number = 5 ∧
    (I3.Workspace.mk 0 "5:work".data false false).Number = 5 ∧
    (I3.Workspace.mk 0 "work".data false false).Number = 0 ∧
    (I3.Workspace.mk 0 "-1".data false false).Number = 0 :=
  ⟨I3.Number_eq_specParseNumber w, by decide, by decide, by decide, by decide⟩

/-- Counterexample to C5 as stated: the label "+5" is neither of the two
claimed shapes (its number is not written as a bare non-negative decimal
integer), yet the effective number is 5, not 0, because strconv.Atoi
accepts a leading plus sign. -/
theorem C5_plus_counterexample :
    (I3.Workspace.mk 0 "+5".data false false).Number = 5 ∧
    (I3.Workspace.mk 0 "+5".data false false).Number ≠ 0 := by decide

namespace I3

theorem digitsVal_some_all {s : Str} {v : Nat} (h : digitsVal s = some v) :
    (s.all fun c => 48 ≤ c.toNat && c.toNat ≤ 57) = true := by
  rw [digitsVal] at h
  by_cases he : s.isEmpty
  · simp [he] at h
  · rw [if_neg he] at h
    by_cases ha : (s.all fun c => 48 ≤ c.toNat && c.toNat ≤ 57) = true
    · exact ha
    · simp [ha] at h

theorem digitChar_digit (d : Nat) (hd : d < 10) :
    (48 ≤ (Char.ofNat (48 + d)).toNat && (Char.ofNat (48 + d)).toNat ≤ 57)
        = true ∧
      (Char.ofNat (48 + d)).toNat - 48 = d := by
  interval_cases d <;> exact ⟨by decide, by decide⟩

theorem digitsVal_append_digit {s : Str} {v : Nat} (d : Nat) (hd : d < 10)
    (h : digitsVal s = some v) :
    digitsVal (s ++ [Char.ofNat (48 + d)]) = some (10 * v + d) := by
  have hall := digitsVal_some_all h
  have hv : s.foldl (fun a c => 10 * a + (c.toNat - 48)) 0 = v := by
    rw [digitsVal] at h
    by_cases he : s.isEmpty
    · simp [he] at h
    · rw [if_neg he, if_pos hall] at h
      exact Option.some.inj h
  have hne : s.isEmpty = false := by
    rw [digitsVal] at h
    by_cases he : s.isEmpty
    · simp [he] at h
    · simpa using he
  rw [digitsVal]
  have h1 : (s ++ [Char.ofNat (48 + d)]).isEmpty = false := by
    cases s <;> simp_all
  have h2 : ((s ++ [Char.ofNat (48 + d)]).all
      fun c => 48 ≤ c.toNat && c.toNat ≤ 57) = true := by
    rw [List.all_append, hall]
    simp [(digitChar_digit d hd).1]
  rw [if_neg (by simp [h1]), if_pos h2, List.foldl_append, hv]
  simp [(digitChar_digit d hd).2]

theorem digitsVal_natToChars (n : Nat) :
    digitsVal (natToChars n) = some n := by
  induction n using Nat.strong_induction_on with
  | _ n ih =>
    by_cases h : n < 10
    · have he : natToChars n = [Char.ofNat (48 + n)] := by
        rw [natToChars, dif_pos h]
      rw [he]
      interval_cases n <;> decide
    · have he : natToChars n =
          natToChars (n / 10) ++ [Char.ofNat (48 + n % 10)] := by
        rw [natToChars, dif_neg h]
      have hdiv : n / 10 < n :=
        Nat.div_lt_self (by omega) (by decide)
      rw [he, digitsVal_append_digit (n % 10) (Nat.mod_lt _ (by decide))
        (ih (n / 10) hdiv)]
      congr 1
      omega

theorem colon_not_mem_natToChars (n : Nat) : ':' ∉ natToChars n := by
  intro hm
  have hall := digitsVal_some_all (digitsVal_natToChars n)
  rw [List.all_eq_true] at hall
  exact absurd (hall ':' hm) (by decide)

theorem natToChars_ne_nil (n : Nat) : natToChars n ≠ [] := by
  intro h
  have := digitsVal_natToChars n
  rw [h] at this
  simp [digitsVal] at this

theorem indexByte_append_self {ch : Char} {a : Str} (b : Str)
    (h : ch ∉ a) : indexByte ch (a ++ ch :: b) = some a.length := by
  induction a with
  | nil => simp [indexByte]
  | cons c r ih =>
    have hc : (c == ch) = false := by
      simp only [List.mem_cons, not_or] at h
      simp [Ne.symm h.1]
    rw [List.cons_append, indexByte, if_neg (by simp [hc]),
      ih (fun hm => h (List.mem_cons.mpr (Or.inr hm)))]
    rfl

theorem parse_natToChars (n : Nat) : parse (natToChars n) = n := by
  rw [parse_eq_specShape]
  have hd := digitsVal_natToChars n
  obtain ⟨c, r, he⟩ : ∃ c r, natToChars n = c :: r := by
    cases hx : natToChars n with
    | nil => exact absurd hx (natToChars_ne_nil n)
    | cons c r => exact ⟨c, r, rfl⟩
  have hcd : (48 ≤ c.toNat && c.toNat ≤ 57) = true := by
    have hall := digitsVal_some_all hd
    rw [List.all_eq_true] at hall
    exact hall c (by rw [he]; exact List.mem_cons_self _ _)
  have hcp : ∀ rest : List Char, c :: r = '+' :: rest → False := by
    intro rest hr
    have : c = '+' := (List.cons.injEq _ _ _ _).mp hr |>.1
    rw [this] at hcd
    exact absurd hcd (by decide)
  rw [he, specShapeVal.eq_2 _ hcp, ← he, hd]
  rfl

end I3

/-- C8: composing the workspace target "n:label" and parsing back its
effective number round-trips for every positive n and non-empty label. -/
theorem C8_format_roundtrip (n : Nat) (label : Str) (hn : 0 < n)
    (hl : label ≠ []) :
    (I3.Workspace.mk 0 (I3.formatTarget n label) false false).Number = n := by
  rw [I3.Workspace.Number]
  have hname : (I3.Workspace.mk 0 (I3.formatTarget n label) false false).Name
      = I3.natToChars n ++ ':' :: label := rfl
  have hcol : ':' ∈ I3.natToChars n ++ ':' :: label :=
    List.mem_append.mpr (Or.inr (List.mem_cons_self _ _))
  have h0 : I3.parse (I3.natToChars n ++ ':' :: label) = 0 :=
    I3.parse_eq_zero_of_colon hcol
  rw [hname, h0, if_neg (by omega),
    I3.indexByte_append_self label (I3.colon_not_mem_natToChars n)]
  show I3.parse (List.take (I3.natToChars n).length
    (I3.natToChars n ++ ':' :: label)) = n
  rw [List.take_left]
  exact I3.parse_natToChars n

/-- Witness for C8 at n = 5 and label "work". -/
theorem C8_format_roundtrip_witness :
    0 < 5 ∧ ("work".data : Str) ≠ [] ∧
      (I3.Workspace.mk 0 (I3.formatTarget 5 "work".data) false false).Number
        = 5 :=
  ⟨by decide, by decide, C8_format_roundtrip 5 "work".data (by decide)
    (by decide)⟩

namespace I3

theorem nextFrom_spec (ws : List Workspace) (n : Nat)
    (hsort : List.Pairwise (· < ·)
      ((ws.map Workspace.Number).filter (fun k => k ≠ 0)))
    (hge : ∀ k ∈ (ws.map Workspace.Number).filter (fun k => k ≠ 0), n ≤ k) :
    n ≤ nextFrom n ws ∧
    nextFrom n ws ∉ (ws.map Workspace.Number).filter (fun k => k ≠ 0) ∧
    ∀ m, n ≤ m → m < nextFrom n ws →
      m ∈ (ws.map Workspace.Number).filter (fun k => k ≠ 0) := by
  induction ws generalizing n with
  | nil =>
    refine ⟨Nat.le_refl _, by simp, ?_⟩
    intro m h1 h2
    rw [nextFrom] at h2
    omega
  | cons w ws ih =>
    by_cases h0 : w.Number = 0
    · have hf : ((w :: ws).map Workspace.Number).filter (fun k => k ≠ 0) =
          (ws.map Workspace.Number).filter (fun k => k ≠ 0) := by
        simp [List.filter_cons, h0]
      rw [hf] at hsort hge ⊢
      have hn : nextFrom n (w :: ws) = nextFrom n ws := by
        rw [nextFrom]
        simp [h0]
      rw [hn]
      exact ih n hsort hge
    · have hf : ((w :: ws).map Workspace.Number).filter (fun k => k ≠ 0) =
          w.Number :: (ws.map Workspace.Number).filter (fun k => k ≠ 0) := by
        simp [List.filter_cons, h0]
      rw [hf] at hsort hge ⊢
      have hhead : ∀ k ∈ (ws.map Workspace.Number).filter (fun k => k ≠ 0),
          w.Number < k := by
        intro k hk
        exact (List.pairwise_cons.mp hsort).1 k hk
      have hwn : n ≤ w.Number := hge w.Number (List.mem_cons_self _ _)
      by_cases hlt : n < w.Number
      · have hn : nextFrom n (w :: ws) = n := by
          rw [nextFrom]
          simp [h0, hlt]
        rw [hn]
        refine ⟨Nat.le_refl _, ?_, ?_⟩
        · intro hm
          rcases List.mem_cons.mp hm with h1 | h2
          · omega
          · have := hhead n h2
            omega
        · intro m h1 h2
          omega
      · have heq : w.Number = n := by omega
        have hn : nextFrom n (w :: ws) = nextFrom (n + 1) ws := by
          rw [nextFrom]
          simp [h0, hlt]
        rw [hn]
        have hge' : ∀ k ∈ (ws.map Workspace.Number).filter (fun k => k ≠ 0),
            n + 1 ≤ k := by
          intro k hk
          have := hhead k hk
          omega
        obtain ⟨ha, hb, hc⟩ := ih (n + 1) (List.pairwise_cons.mp hsort).2 hge'
        refine ⟨by omega, ?_, ?_⟩
        · intro hm
          rcases List.mem_cons.mp hm with h1 | h2
          · omega
          · exact hb h2
        · intro m h1 h2
          rcases Nat.eq_or_lt_of_le h1 with h3 | h3
          · exact List.mem_cons.mpr (Or.inl (by omega))
          · exact List.mem_cons.mpr (Or.inr (hc m (by omega) h2))

end I3

/-- C3 (amended): when the positive workspace numbers appear in strictly
increasing order, as i3 reports them, NextWorkspace returns the smallest
positive integer not already used as a workspace number, ignoring
workspaces with no parseable leading number; the three spec examples
hold. -/
theorem C3_next_workspace (ws : List I3.Workspace)
    (hsort : List.Pairwise (· < ·)
      ((ws.map I3.Workspace.Number).filter (fun k => k ≠ 0))) :
    (0 < I3.NextWorkspace ws ∧
      I3.NextWorkspace ws ∉
        (ws.map I3.Workspace.Number).filter (fun k => k ≠ 0) ∧
      ∀ m, 0 < m → m < I3.NextWorkspace ws →
        m ∈ (ws.map I3.Workspace.Number).filter (fun k => k ≠ 0)) ∧
    I3.NextWorkspace [] = 1 ∧
    I3.NextWorkspace [⟨1, "1".data, false, false⟩,
      ⟨2, "2".data, false, false⟩, ⟨4, "4".data, false, false⟩] = 3 ∧
    I3.NextWorkspace [⟨1, "1".data, false, false⟩,
      ⟨2, "2".data, false, false⟩, ⟨3, "3".data, false, false⟩] = 4 := by
  have hge : ∀ k ∈ (ws.map I3.Workspace.Number).filter (fun k => k ≠ 0),
      1 ≤ k := by
    intro k hk
    have := (List.mem_filter.mp hk).2
    simp at this
    omega
  obtain ⟨ha, hb, hc⟩ := I3.nextFrom_spec ws 1 hsort hge
  exact ⟨⟨ha, hb, hc⟩, by decide, by decide, by decide⟩

/-- Witness for C3 at the spec example list with numbers 1, 2, 4. -/
theorem C3_next_workspace_witness :
    List.Pairwise (· < ·)
      (([⟨1, "1".data, false, false⟩, ⟨2, "2".data, false, false⟩,
        ⟨4, "4".data, false, false⟩].map
          I3.Workspace.Number).filter (fun k => k ≠ 0)) ∧
    I3.NextWorkspace [⟨1, "1".data, false, false⟩,
      ⟨2, "2".data, false, false⟩, ⟨4, "4".data, false, false⟩] = 3 :=
  ⟨by decide,
    (C3_next_workspace
      [⟨1, "1".data, false, false⟩, ⟨2, "2".data, false, false⟩,
        ⟨4, "4".data, false, false⟩] (by decide)).2.2.1⟩

/-- Counterexample to C3 as stated: NextWorkspace is not the smallest
unused positive number for every workspace list; on the unsorted list
with numbers 3 then 1 it returns 1, which is already in use. -/
theorem C3_unsorted_counterexample :
    I3.NextWorkspace [⟨3, "3".data, false, false⟩,
      ⟨1, "1".data, false, false⟩] = 1 ∧
    (1 : Nat) ∈ [⟨3, "3".data, false, false⟩,
      ⟨1, "1".data, false, false⟩].map I3.Workspace.Number := by decide

namespace LoadPkg

theorem lastIndexByte_eq_none {ch : Char} {s : Str} (h : ch ∉ s) :
    lastIndexByte ch s = none := by
  induction s with
  | nil => rfl
  | cons c r ih =>
    rw [lastIndexByte,
      ih (fun hm => h (List.mem_cons.mpr (Or.inr hm)))]
    have hc : (c == ch) = false := by
      simp only [List.mem_cons, not_or] at h
      simp [Ne.symm h.1]
    rw [if_neg (by simp [hc])]

theorem lastIndexByte_append {ch : Char} (a : Str) {b : Str} (hb : ch ∉ b) :
    lastIndexByte ch (a ++ ch :: b) = some a.length := by
  induction a with
  | nil =>
    show lastIndexByte ch (ch :: b) = some 0
    rw [lastIndexByte, lastIndexByte_eq_none hb, if_pos (by simp)]
  | cons c r ih =>
    show lastIndexByte ch (c :: (r ++ ch :: b)) = some (r.length + 1)
    rw [lastIndexByte, ih]

end LoadPkg

/-- C10: the short module name is the part of the identity after the
last slash when that slash sits at a positive index, and the whole
identity otherwise (no slash, or only a leading slash); this short name
is the label composed into the workspace switch command by main. -/
theorem C10_module_name (path : Str) (num : Nat) (m : LoadPkg.Module) :
    (('/' : Char) ∉ path → LoadPkg.Name path = path) ∧
    (∀ rest, path = '/' :: rest → ('/' : Char) ∉ rest →
      LoadPkg.Name path = path) ∧
    (∀ a b, path = a ++ '/' :: b → a ≠ [] → ('/' : Char) ∉ b →
      LoadPkg.Name path = b) ∧
    mainWorkspaceMsg num m =
      "workspace ".data ++ I3.natToChars num ++ ':' :: LoadPkg.Name m.Path := by
  refine ⟨?_, ?_, ?_, rfl⟩
  · intro h
    rw [LoadPkg.Name, LoadPkg.lastIndexByte_eq_none h]
  · intro rest hr hnr
    subst hr
    have : LoadPkg.lastIndexByte '/' ('/' :: rest) = some 0 :=
      LoadPkg.lastIndexByte_append [] hnr
    rw [LoadPkg.Name, this]
    simp
  · intro a b hab ha hnb
    subst hab
    rw [LoadPkg.Name, LoadPkg.lastIndexByte_append a hnb]
    show (if 0 < a.length then List.drop (a.length + 1) (a ++ '/' :: b)
      else (a ++ '/' :: b)) = b
    rw [if_pos (List.length_pos.mpr ha)]
    have hsplit : a ++ '/' :: b = (a ++ ['/']) ++ b := by simp
    rw [hsplit, List.drop_left' (by simp)]

/-- Witness for C10 at the identity "a.com/x/y": the short name is "y". -/
theorem C10_module_name_witness :
    ("a.com/x/y".data : Str) = "a.com/x".data ++ '/' :: "y".data ∧
    LoadPkg.Name "a.com/x/y".data = "y".data :=
  ⟨by decide,
    (C10_module_name "a.com/x/y".data 1
      ⟨[], [], false, [], [], [], [], none⟩).2.2.1
      "a.com/x".data "y".data (by decide) (by decide) (by decide)⟩

namespace SearchPkg

theorem load_ok_placement {root dirpath : Str} {mf : Option Manifest}
    {m : Module} (h : load root dirpath mf = Except.ok m) :
    GoPath.filepathJoin root m.Path = m.Dir := by
  cases mf with
  | none => simp [load] at h
  | some file =>
    rw [load] at h
    cases hfm : file.module <;> cases hfg : file.go <;>
      simp only [hfm, hfg] at h <;> split at h <;>
      simp_all <;> subst h <;> simpa using by assumption

end SearchPkg

namespace SearchPkg

theorem mem_MatchModules {fs : List (Str × List Entry)} {pattern : Str}
    {m : Module} (h : m ∈ (MatchModules fs pattern).Modules) :
    ∃ gd ∈ fs, ∃ e ∈ gd.2,
      load (srcRoot gd.1) e.dir e.mf = Except.ok m ∧
      PatternMatch.matchPattern pattern m.Path = true := by
  simp only [MatchModules] at h
  rw [List.mem_flatMap] at h
  obtain ⟨gd, hgd, hm⟩ := h
  rw [List.mem_filterMap] at hm
  obtain ⟨e, he, hfn⟩ := hm
  refine ⟨gd, hgd, e, he, ?_⟩
  split at hfn
  · simp at hfn
  · rename_i m' heq
    split at hfn
    · rename_i hmp
      obtain rfl := Option.some.inj hfn
      exact ⟨heq, hmp⟩
    · simp at hfn

theorem Resolve_ok_mem {fs : List (Str × List Entry)} {pattern : Str}
    {m : Module} (h : Resolve fs pattern = Except.ok m) :
    m ∈ (ModulePath fs pattern).Modules := by
  simp only [Resolve] at h
  split at h
  · rename_i m' heq
    obtain rfl := Except.ok.inj h
    rw [heq]
    exact List.mem_cons_self _ _
  · simp at h

end SearchPkg

namespace LoadPkg

theorem load_error_none_placement {raw : Raw} {file : Manifest}
    (h : (load raw file).Error = none) :
    GoPath.filepathJoin (load raw file).Root (load raw file).Path =
      (load raw file).Dir := by
  rw [load] at h ⊢
  cases hfm : file.module <;> cases hfg : file.go <;>
    simp only [hfm, hfg] at h ⊢ <;> split at h <;> simp_all

theorem load_mismatch_marks_error {raw : Raw} {file : Manifest} {p v : Str}
    (hm : file.module = some (p, v))
    (h : GoPath.filepathJoin raw.Root p ≠ raw.Dir) :
    (load raw file).Error ≠ none := by
  rw [load]
  cases hfg : file.go <;> simp only [hm, hfg] <;> split <;> simp_all

end LoadPkg

namespace SearchPkg

theorem load_declared_mismatch {root dirpath p v : Str} {go : Option Str}
    {m : Module} (h : GoPath.filepathJoin root p ≠ dirpath) :
    load root dirpath (some ⟨some (p, v), go⟩) ≠ Except.ok m := by
  intro hok
  rw [load] at hok
  cases go <;> simp only [] at hok <;> split at hok <;> simp_all

end SearchPkg

/-- C2: every module returned as a successful match satisfies the
placement invariant, its directory being the join of the search root and
its declared identity; a candidate whose declared identity is
inconsistent with its filesystem location is never returned as a
successful match in the search iteration, and in the load iteration it
carries a non-nil loadError, so the Modules filter drops it while
ModulesAndErrors keeps it reportable. -/
theorem C2_placement_invariant :
    (∀ fs pattern m, SearchPkg.Resolve fs pattern = Except.ok m →
      ∃ gd ∈ fs,
        GoPath.filepathJoin (SearchPkg.srcRoot gd.1) m.Path = m.Dir) ∧
    (∀ raws m, m ∈ LoadPkg.Modules raws →
      m.Error = none ∧ GoPath.filepathJoin m.Root m.Path = m.Dir) ∧
    (∀ root dirpath p v go m,
      GoPath.filepathJoin root p ≠ dirpath →
      SearchPkg.load root dirpath (some ⟨some (p, v), go⟩) ≠ Except.ok m) ∧
    (∀ raw file p v, file.module = some (p, v) →
      GoPath.filepathJoin raw.Root p ≠ raw.Dir →
      (LoadPkg.load raw file).Error ≠ none) := by
  refine ⟨?_, ?_, ?_, ?_⟩
  · intro fs pattern m h
    have hm := SearchPkg.Resolve_ok_mem h
    rw [SearchPkg.ModulePath] at hm
    by_cases h1 : PatternMatch.isAbs pattern = true
    · rw [if_pos h1] at hm
      simp at hm
    · rw [if_neg h1] at hm
      by_cases h2 : PatternMatch.isRelativePath pattern = true
      · rw [if_pos h2] at hm
        simp at hm
      · rw [if_neg h2] at hm
        obtain ⟨gd, hgd, e, he, hl, _⟩ := SearchPkg.mem_MatchModules hm
        exact ⟨gd, hgd, SearchPkg.load_ok_placement hl⟩
  · intro raws m h
    rw [LoadPkg.Modules] at h
    obtain ⟨hin, herr⟩ := List.mem_filter.mp h
    have herr' : m.Error = none := by simpa using herr
    rw [LoadPkg.ModulesAndErrors, List.mem_map] at hin
    obtain ⟨rm, hrm, rfl⟩ := hin
    exact ⟨herr', LoadPkg.load_error_none_placement herr'⟩
  · intro root dirpath p v go m h
    exact SearchPkg.load_declared_mismatch h
  · intro raw file p v hm h
    exact LoadPkg.load_mismatch_marks_error hm h

/-- Witness for C2 at the spec scenario: a manifest at root/a/b
declaring identity "x/y" is rejected by the search loader. -/
theorem C2_placement_invariant_witness :
    GoPath.filepathJoin "/go/src/".data "x/y".data ≠ "/go/src/a/b".data ∧
    SearchPkg.load "/go/src/".data "/go/src/a/b".data
        (some ⟨some ("x/y".data, []), none⟩) ≠
      Except.ok ⟨"x/y".data, [], true, "/go/src/a/b".data,
        "1.13".data, []⟩ :=
  ⟨by decide,
    C2_placement_invariant.2.2.1 "/go/src/".data "/go/src/a/b".data
      "x/y".data [] none _ (by decide)⟩

namespace ModPkg

theorem resolveErr_ne {pattern r1 r2 : Str} (h : r1 ≠ r2) :
    resolveErr pattern r1 ≠ resolveErr pattern r2 := by
  intro he
  apply h
  rw [resolveErr, resolveErr] at he
  simp only [List.append_assoc] at he
  exact List.append_cancel_left (List.append_cancel_left
    (List.append_cancel_left he))

theorem Resolve_of_not_rejected {roots : List Str} {entries : List Entry}
    {pattern : Str} (h1 : PatternMatch.isAbs pattern = false)
    (h2 : PatternMatch.isRelativePath pattern = false) :
    Resolve roots entries pattern =
      (match (MatchModules roots entries pattern).Modules with
       | [] => Except.error (resolveErr pattern "no modules matched".data)
       | [mod] => Except.ok mod
       | _ :: _ :: _ =>
         Except.error (resolveErr pattern "multiple modules matched".data)) := by
  rw [Resolve, if_neg (by simp [h1]), if_neg (by simp [h2])]

end ModPkg

/-- C1 (amended): with a pattern that survives the path rejection, zero
matches yield the no-modules-matched error, exactly one match yields
that module, and more than one match yields the
multiple-modules-matched error, which differs from the zero-match error
but names only the pattern, not the matched identities; this holds for
every pattern, literal or wildcarded. -/
theorem C1_multiplicity (roots : List Str) (entries : List ModPkg.Entry)
    (pattern : Str) (h1 : PatternMatch.isAbs pattern = false)
    (h2 : PatternMatch.isRelativePath pattern = false) :
    ((ModPkg.MatchModules roots entries pattern).Modules = [] →
      ModPkg.Resolve roots entries pattern =
        Except.error (ModPkg.resolveErr pattern "no modules matched".data)) ∧
    (∀ m, (ModPkg.MatchModules roots entries pattern).Modules = [m] →
      ModPkg.Resolve roots entries pattern = Except.ok m) ∧
    (∀ m1 m2 rest,
      (ModPkg.MatchModules roots entries pattern).Modules
          = m1 :: m2 :: rest →
      ModPkg.Resolve roots entries pattern =
        Except.error
          (ModPkg.resolveErr pattern "multiple modules matched".data)) ∧
    ModPkg.resolveErr pattern "no modules matched".data ≠
      ModPkg.resolveErr pattern "multiple modules matched".data := by
  refine ⟨?_, ?_, ?_, ModPkg.resolveErr_ne (by decide)⟩
  · intro hms
    rw [ModPkg.Resolve_of_not_rejected h1 h2, hms]
  · intro m hms
    rw [ModPkg.Resolve_of_not_rejected h1 h2, hms]
  · intro m1 m2 rest hms
    rw [ModPkg.Resolve_of_not_rejected h1 h2, hms]

/-- Witness for C1 at a literal pattern with a unique match. -/
theorem C1_multiplicity_witness :
    PatternMatch.isAbs "example.com/x".data = false ∧
    PatternMatch.isRelativePath "example.com/x".data = false ∧
    ModPkg.Resolve ["/go".data]
        [⟨"/go/src/example.com/x".data,
          some ⟨"example.com/x".data, "/go/src/example.com/x".data⟩⟩]
        "example.com/x".data =
      Except.ok ⟨"example.com/x".data, "/go/src/example.com/x".data⟩ :=
  ⟨by decide, by decide,
    (C1_multiplicity ["/go".data]
      [⟨"/go/src/example.com/x".data,
        some ⟨"example.com/x".data, "/go/src/example.com/x".data⟩⟩]
      "example.com/x".data (by decide) (by decide)).2.1
      ⟨"example.com/x".data, "/go/src/example.com/x".data⟩ (by decide)⟩

/-- Counterexample to C1 as stated: the multiple-match error does not
carry the list of matched identities; two searches matching different
identity pairs under the same pattern produce literally the same error
value, while their matched identity lists differ. -/
theorem C1_ambiguous_counterexample :
    ModPkg.Resolve ["/go".data]
        [⟨"/go/src/example.com/x".data,
          some ⟨"example.com/x".data, "/go/src/example.com/x".data⟩⟩,
         ⟨"/go/src/example.com/y".data,
          some ⟨"example.com/y".data, "/go/src/example.com/y".data⟩⟩]
        "example.com/...".data =
      ModPkg.Resolve ["/go".data]
        [⟨"/go/src/example.com/z".data,
          some ⟨"example.com/z".data, "/go/src/example.com/z".data⟩⟩,
         ⟨"/go/src/example.com/w".data,
          some ⟨"example.com/w".data, "/go/src/example.com/w".data⟩⟩]
        "example.com/...".data ∧
    (ModPkg.MatchModules ["/go".data]
        [⟨"/go/src/example.com/x".data,
          some ⟨"example.com/x".data, "/go/src/example.com/x".data⟩⟩,
         ⟨"/go/src/example.com/y".data,
          some ⟨"example.com/y".data, "/go/src/example.com/y".data⟩⟩]
        "example.com/...".data).Modules.map ModPkg.Module.Path ≠
      (ModPkg.MatchModules ["/go".data]
        [⟨"/go/src/example.com/z".data,
          some ⟨"example.com/z".data, "/go/src/example.com/z".data⟩⟩,
         ⟨"/go/src/example.com/w".data,
          some ⟨"example.com/w".data, "/go/src/example.com/w".data⟩⟩]
        "example.com/...".data).Modules.map ModPkg.Module.Path := by
  constructor
  · rw [ModPkg.Resolve_of_not_rejected (by decide) (by decide),
      ModPkg.Resolve_of_not_rejected (by decide) (by decide),
      show (ModPkg.MatchModules ["/go".data]
        [⟨"/go/src/example.com/x".data,
          some ⟨"example.com/x".data, "/go/src/example.com/x".data⟩⟩,
         ⟨"/go/src/example.com/y".data,
          some ⟨"example.com/y".data, "/go/src/example.com/y".data⟩⟩]
        "example.com/...".data).Modules =
        [⟨"example.com/x".data, "/go/src/example.com/x".data⟩,
         ⟨"example.com/y".data, "/go/src/example.com/y".data⟩] from by decide,
      show (ModPkg.MatchModules ["/go".data]
        [⟨"/go/src/example.com/z".data,
          some ⟨"example.com/z".data, "/go/src/example.com/z".data⟩⟩,
         ⟨"/go/src/example.com/w".data,
          some ⟨"example.com/w".data, "/go/src/example.com/w".data⟩⟩]
        "example.com/...".data).Modules =
        [⟨"example.com/z".data, "/go/src/example.com/z".data⟩,
         ⟨"example.com/w".data, "/go/src/example.com/w".data⟩] from by decide]
  · have hx : (ModPkg.MatchModules ["/go".data]
        [⟨"/go/src/example.com/x".data,
          some ⟨"example.com/x".data, "/go/src/example.com/x".data⟩⟩,
         ⟨"/go/src/example.com/y".data,
          some ⟨"example.com/y".data, "/go/src/example.com/y".data⟩⟩]
        "example.com/...".data).Modules =
        [⟨"example.com/x".data, "/go/src/example.com/x".data⟩,
         ⟨"example.com/y".data, "/go/src/example.com/y".data⟩] := by decide
    have hz : (ModPkg.MatchModules ["/go".data]
        [⟨"/go/src/example.com/z".data,
          some ⟨"example.com/z".data, "/go/src/example.com/z".data⟩⟩,
         ⟨"/go/src/example.com/w".data,
          some ⟨"example.com/w".data, "/go/src/example.com/w".data⟩⟩]
        "example.com/...".data).Modules =
        [⟨"example.com/z".data, "/go/src/example.com/z".data⟩,
         ⟨"example.com/w".data, "/go/src/example.com/w".data⟩] := by decide
    rw [hx, hz]
    decide

/-- C7 (amended): a pattern that is an absolute path, or is exactly "."
or "..", or begins with "./" or "../", is rejected by Resolve before any
matching, with an error naming the rejection kind; the result does not
depend on the walked entries, and the rejection errors differ from the
no-match and multiple-match errors. -/
theorem C7_pattern_rejection (roots : List Str)
    (entries entries' : List ModPkg.Entry) (pattern : Str)
    (h : PatternMatch.isAbs pattern = true ∨
      PatternMatch.isRelativePath pattern = true) :
    (PatternMatch.isAbs pattern = true →
      ModPkg.Resolve roots entries pattern =
        Except.error (ModPkg.resolveErr pattern "absolute path".data)) ∧
    (PatternMatch.isAbs pattern = false →
      PatternMatch.isRelativePath pattern = true →
      ModPkg.Resolve roots entries pattern =
        Except.error (ModPkg.resolveErr pattern "relative path".data)) ∧
    ModPkg.Resolve roots entries pattern =
      ModPkg.Resolve roots entries' pattern ∧
    ModPkg.resolveErr pattern "absolute path".data ≠
      ModPkg.resolveErr pattern "no modules matched".data ∧
    ModPkg.resolveErr pattern "absolute path".data ≠
      ModPkg.resolveErr pattern "multiple modules matched".data ∧
    ModPkg.resolveErr pattern "relative path".data ≠
      ModPkg.resolveErr pattern "no modules matched".data ∧
    ModPkg.resolveErr pattern "relative path".data ≠
      ModPkg.resolveErr pattern "multiple modules matched".data := by
  have habs : ∀ es : List ModPkg.Entry, PatternMatch.isAbs pattern = true →
      ModPkg.Resolve roots es pattern =
        Except.error (ModPkg.resolveErr pattern "absolute path".data) := by
    intro es ha
    rw [ModPkg.Resolve, if_pos ha]
  have hrel : ∀ es : List ModPkg.Entry, PatternMatch.isAbs pattern = false →
      PatternMatch.isRelativePath pattern = true →
      ModPkg.Resolve roots es pattern =
        Except.error (ModPkg.resolveErr pattern "relative path".data) := by
    intro es ha hr
    rw [ModPkg.Resolve, if_neg (by simp [ha]), if_pos hr]
  refine ⟨habs entries, hrel entries, ?_,
    ModPkg.resolveErr_ne (by decide), ModPkg.resolveErr_ne (by decide),
    ModPkg.resolveErr_ne (by decide), ModPkg.resolveErr_ne (by decide)⟩
  cases hb : PatternMatch.isAbs pattern with
  | true => rw [habs entries hb, habs entries' hb]
  | false =>
    rcases h with h1 | h2
    · rw [hb] at h1
      exact absurd h1 (by decide)
    · rw [hrel entries hb h2, hrel entries' hb h2]

/-- Witness for C7 at the relative pattern "./x" with two different
entry lists. -/
theorem C7_pattern_rejection_witness :
    (PatternMatch.isAbs "./x".data = true ∨
      PatternMatch.isRelativePath "./x".data = true) ∧
    ModPkg.Resolve ["/go".data] [] "./x".data =
      Except.error (ModPkg.resolveErr "./x".data "relative path".data) :=
  ⟨Or.inr (by decide),
    (C7_pattern_rejection ["/go".data] []
      [⟨"/go/src/a".data, none⟩] "./x".data
      (Or.inr (by decide))).2.1 (by decide) (by decide)⟩

/-- Counterexample to C7 as stated: the pattern ".foo" begins with a dot
but is not rejected; Resolve proceeds to the search phase and reports
the no-modules-matched outcome, not an unsupported-pattern error. -/
theorem C7_leading_dot_counterexample :
    (".foo".data : Str).headD ' ' = '.' ∧
    PatternMatch.isAbs ".foo".data = false ∧
    PatternMatch.isRelativePath ".foo".data = false ∧
    ModPkg.Resolve ["/go".data] [] ".foo".data =
      Except.error (ModPkg.resolveErr ".foo".data "no modules matched".data) := by
  refine ⟨by decide, by decide, by decide, ?_⟩
  rw [ModPkg.Resolve_of_not_rejected (by decide) (by decide)]
  rfl

/-- C6 (amended): a declared identity failing the import-path check of
module.CheckImportPath (which does not require a dot in the first
segment) leaves the load operation itself successful while marking the
returned Module with a loadError and keeping the declared identity, so
the candidate stays reportable as matched-then-rejected. -/
theorem C6_invalid_identity_kept (raw : LoadPkg.Raw) (file : Manifest)
    (p v : Str) (hm : file.module = some (p, v))
    (hbad : LoadPkg.checkImportPath p = false) :
    LoadPkg.loadE raw (some file) = Except.ok (LoadPkg.load raw file) ∧
    (LoadPkg.load raw file).Path = p ∧
    (LoadPkg.load raw file).Error ≠ none := by
  refine ⟨rfl, ?_, ?_⟩
  · rw [LoadPkg.load]
    cases hfg : file.go <;> simp only [hm, hfg, hbad] <;> split <;> rfl
  · rw [LoadPkg.load]
    cases hfg : file.go <;> simp only [hm, hfg, hbad] <;> split <;> simp

/-- Witness for C6 at the invalid identity "x/../y" (its middle element
is all dots, which CheckImportPath rejects). -/
theorem C6_invalid_identity_kept_witness :
    (⟨some ("x/../y".data, []), none⟩ : Manifest).module
        = some ("x/../y".data, []) ∧
    LoadPkg.checkImportPath "x/../y".data = false ∧
    (LoadPkg.load ⟨"x/../y".data, "/go/src/x/y".data,
        "/go/src/x/y/go.mod".data, "/go/src".data⟩
      ⟨some ("x/../y".data, []), none⟩).Error ≠ none :=
  ⟨rfl, by decide,
    (C6_invalid_identity_kept
      ⟨"x/../y".data, "/go/src/x/y".data, "/go/src/x/y/go.mod".data,
        "/go/src".data⟩
      ⟨some ("x/../y".data, []), none⟩ "x/../y".data [] rfl (by decide)).2.2⟩

/-- Counterexample to C6 as stated: the identity "foo" has no dot in its
first (and only) segment, yet CheckImportPath accepts it and the loader
returns the candidate with no loadError at all when its placement is
consistent. -/
theorem C6_no_dot_accepted :
    LoadPkg.checkImportPath "foo".data = true ∧
    LoadPkg.firstSegmentContainsDot "foo".data = false ∧
    (LoadPkg.load ⟨"foo".data, "/go/src/foo".data, "/go/src/foo/go.mod".data,
        "/go/src".data⟩ ⟨some ("foo".data, []), some "1.15".data⟩).Error
      = none := by decide

/-- C9 is a code bug: load writes the go directive version (or its
"1.13" default) into the GoMod field, which its own declaration
documents as the path to the go.mod file, and leaves GoVersion empty;
the manifest path is lost from the returned Module. -/
theorem C9_gomod_field_overwritten :
    (LoadPkg.load ⟨"a.com/m".data, "/go/src/a.com/m".data,
        "/go/src/a.com/m/go.mod".data, "/go/src".data⟩
      ⟨some ("a.com/m".data, []), some "1.15".data⟩).GoMod = "1.15".data ∧
    (LoadPkg.load ⟨"a.com/m".data, "/go/src/a.com/m".data,
        "/go/src/a.com/m/go.mod".data, "/go/src".data⟩
      ⟨some ("a.com/m".data, []), some "1.15".data⟩).GoMod ≠
      "/go/src/a.com/m/go.mod".data ∧
    (LoadPkg.load ⟨"a.com/m".data, "/go/src/a.com/m".data,
        "/go/src/a.com/m/go.mod".data, "/go/src".data⟩
      ⟨some ("a.com/m".data, []), some "1.15".data⟩).GoVersion = [] ∧
    (LoadPkg.load ⟨"a.com/m".data, "/go/src/a.com/m".data,
        "/go/src/a.com/m/go.mod".data, "/go/src".data⟩
      ⟨some ("a.com/m".data, []), none⟩).GoMod = "1.13".data ∧
    (LoadPkg.load ⟨"a.com/m".data, "/go/src/a.com/m".data,
        "/go/src/a.com/m/go.mod".data, "/go/src".data⟩
      ⟨some ("a.com/m".data, []), some "1.15".data⟩).Error = none := by
  decide
